import Mathlib

/-!
Verification of the closure-tree maintenance and query engine.

The development is a shallow embedding of the Rust sources:

* `src/config.rs`   — tree configuration, ordering and advisory-lock strategy,
  and the derived advisory-lock key (CRC32 content hash).
* `src/lock.rs`     — `LockedTransaction`: begin / advisory lock / commit /
  rollback around one transaction.
* `src/repository.rs` — the repository operations: `children`, `roots`,
  `descendants`, `self_and_descendants`, `find_by_path`,
  `find_or_create_by_path`, and the closure-row insertion that keeps the
  (ancestor, descendant, generations) table consistent.

The relational store is out of scope of the sources (it sits behind the
SeaORM connection trait), so it is modelled as explicit state: a `Db` value
holding the node table and the hierarchy (closure) table as row lists, in
insertion order.  A SQL query becomes a pure function on `Db` (`filter`,
first-match `find?`, a deterministic stable sort for `ORDER BY ... ASC`),
a write becomes an append.  Each store round trip (`.await?` on a query,
insert, or raw statement in the sources) consumes one step of a failure
schedule `Sched`, so that store failures can be injected at any point;
transactions are modelled by running the walk on a transaction-local copy
of the durable `Db`, which `commit` publishes and `rollback` discards.

Machine integers of the sources become `Nat`/`Int`; the CRC32 of
`crc32fast` is embedded bitwise over `Nat` with explicit `% 2` / `/ 2`
steps, bytes are taken modulo 256 where the source type is `u8`.
-/

set_option maxRecDepth 40000

/-- Decidable equality for `Except`, used to evaluate the embedding on
concrete inputs. -/
instance instDecEqExcept {e a : Type} [DecidableEq e] [DecidableEq a] :
    DecidableEq (Except e a) := fun x y =>
  match x, y with
  | Except.ok v, Except.ok w =>
    if h : v = w then isTrue (by rw [h]) else isFalse (by intro hh; cases hh; exact h rfl)
  | Except.ok _, Except.error _ => isFalse (by intro hh; cases hh)
  | Except.error _, Except.ok _ => isFalse (by intro hh; cases hh)
  | Except.error v, Except.error w =>
    if h : v = w then isTrue (by rw [h]) else isFalse (by intro hh; cases hh; exact h rfl)

/-! ## Data model (§3 of the spec, `tests/postgres.rs` schema)

A node row: `id`, nullable `parent_id`, `name`.  The extra field `ord`
models the value of the numeric ordering column named by
`OrderStrategy::NumericColumn { column }` — the repository sorts on that
raw column (`Expr::cust(column)`), so its value is carried on the row.
An edge row is one `(ancestor_id, descendant_id, generations)` triple of
the hierarchy table; `generations` is `i32` in the source, embedded as
`Int`. -/

structure Node where
  id : Nat
  parent_id : Option Nat
  name : String
  ord : Int
deriving DecidableEq, Repr

structure Edge where
  ancestor : Nat
  descendant : Nat
  generations : Int
deriving DecidableEq, Repr

/-- The persisted pair of tables, each as a list of rows in insertion
order. -/
structure Db where
  nodes : List Node
  edges : List Edge
deriving DecidableEq, Repr

/-- Error taxonomy of `src/error.rs` (`ClosureTreeError`).  The two store
wrappers `Database(DbErr)` and `Sqlx` are collapsed into the single
`database` case: their payloads never influence control flow. -/
inductive ClosureTreeError where
  | unsupportedBackend
  | database
  | emptyPath
  | invariant (detail : String)
deriving DecidableEq, Repr

/-- Connection backends (`sea_orm::DbBackend`). -/
inductive DbBackend where
  | postgres
  | mysql
  | sqlite
deriving DecidableEq, Repr

/-! ## Configuration (`src/config.rs`) -/

inductive DependentBehavior where
  | Nullify
  | Destroy
  | DeleteAll
  | None
deriving DecidableEq, Repr

inductive OrderStrategy where
  | Manual
  | NumericColumn (column : String)
deriving DecidableEq, Repr

structure AdvisoryLockKey where
  value : String
deriving DecidableEq, Repr

def AdvisoryLockKey.as_str (k : AdvisoryLockKey) : String := k.value

inductive AdvisoryLockStrategy where
  | Disabled
  | Namespaced (key : AdvisoryLockKey)
deriving DecidableEq, Repr

structure ClosureTreeConfig where
  entity_name : String
  hierarchy_name : String
  parent_column : String
  name_column : String
  hierarchy_table : String
  dependent_behavior : DependentBehavior
  order_strategy : Option OrderStrategy
  advisory_lock_strategy : AdvisoryLockStrategy
deriving DecidableEq, Repr

/-! ### The derived advisory-lock key

`AdvisoryLockKey::derived_from` feeds `entity`, the byte `b"/"`, and
`hierarchy` through `crc32fast::Hasher` and formats the result with
`format!("closure-tree::{entity}::{hierarchy}::{crc:x}")` — lowercase
hex without zero padding.  CRC32 (IEEE, as computed by `crc32fast`) is
embedded bitwise. -/

def crc32Round (c : Nat) : Nat :=
  if c % 2 = 1 then Nat.xor (c / 2) 0xEDB88320 else c / 2

/-- One byte of CRC32: xor the byte into the low bits, then eight
shift/xor rounds.  The byte is reduced `% 256` since the source consumes
`u8` values. -/
def crc32Byte (crc b : Nat) : Nat :=
  crc32Round (crc32Round (crc32Round (crc32Round (crc32Round (crc32Round
    (crc32Round (crc32Round (Nat.xor crc (b % 256)))))))))

def crc32 (bytes : List Nat) : Nat :=
  Nat.xor (bytes.foldl crc32Byte 4294967295) 4294967295

/-- UTF-8 encoding of one scalar value, matching Rust's `str::as_bytes`
view of the string content. -/
def utf8Bytes (c : Char) : List Nat :=
  let n := c.toNat
  if n < 128 then [n]
  else if n < 2048 then [192 + n / 64, 128 + n % 64]
  else if n < 65536 then [224 + n / 4096, 128 + (n / 64) % 64, 128 + n % 64]
  else [240 + n / 262144, 128 + (n / 4096) % 64, 128 + (n / 64) % 64, 128 + n % 64]

def strBytes (s : String) : List Nat := (s.data.map utf8Bytes).flatten

def hexDigitChar (d : Nat) : Char :=
  if d < 10 then Char.ofNat (48 + d) else Char.ofNat (87 + d)

/-- Digits of `n` in base 16, most significant first, onto `acc`.  The
fuel argument makes the recursion structural; `n` itself is always
enough fuel. -/
def toHexCore : Nat → Nat → List Char → List Char
  | 0, n, acc => hexDigitChar (n % 16) :: acc
  | fuel+1, n, acc =>
    if n < 16 then hexDigitChar n :: acc
    else toHexCore fuel (n / 16) (hexDigitChar (n % 16) :: acc)

/-- Rust `format!("{n:x}")`: lowercase hex, no padding, `"0"` for zero. -/
def toHexLower (n : Nat) : String := String.mk (toHexCore n n [])

/-- Embedding of `AdvisoryLockKey::derived_from` (`src/config.rs`):
CRC32 over `entity ++ "/" ++ hierarchy`, then
`"closure-tree::<entity>::<hierarchy>::<crc in lowercase hex>"`. -/
def AdvisoryLockKey.derived_from (entity hierarchy : String) : AdvisoryLockKey :=
  AdvisoryLockKey.mk
    ("closure-tree::" ++ entity ++ "::" ++ hierarchy ++ "::" ++
      toHexLower (crc32 (strBytes entity ++ [47] ++ strBytes hierarchy)))

/-- Embedding of `ClosureTreeConfig::new`: defaults with a derived
namespaced lock key. -/
def ClosureTreeConfig.new (entity_name hierarchy_name : String) : ClosureTreeConfig :=
  { entity_name
    hierarchy_name
    parent_column := "parent_id"
    name_column := "name"
    hierarchy_table := ""
    dependent_behavior := DependentBehavior.Nullify
    order_strategy := none
    advisory_lock_strategy :=
      AdvisoryLockStrategy.Namespaced
        (AdvisoryLockKey.derived_from entity_name hierarchy_name) }

/-! ## Pure query layer

The effect of each repository query on the `Db` state, with SQL modelled
as list operations: `WHERE` is `filter`, `.one()` (no `ORDER BY`) is the
first matching row, `ORDER BY c ASC, name ASC` is a deterministic sort,
inserts append. -/

/-- SQL `ORDER BY name ASC` on the row lists: byte-wise lexicographic
comparison of the UTF-8 name (`Char.toNat` is the scalar value; for the
comparisons used by the claims the distinction is immaterial). -/
def charListLe : List Char → List Char → Bool
  | [], _ => true
  | _ :: _, [] => false
  | a :: as, b :: bs =>
    if a.toNat < b.toNat then true
    else if b.toNat < a.toNat then false
    else charListLe as bs

/-- Row order for `ORDER BY name ASC`. -/
def nodeNameLE (a b : Node) : Prop := charListLe a.name.data b.name.data = true

/-- Row order for `ORDER BY <numeric column> ASC, name ASC`. -/
def nodeOrdNameLE (a b : Node) : Prop :=
  a.ord < b.ord ∨ (a.ord = b.ord ∧ charListLe a.name.data b.name.data = true)

instance : DecidableRel nodeNameLE := fun a b => by
  unfold nodeNameLE; infer_instance

instance : DecidableRel nodeOrdNameLE := fun a b => by
  unfold nodeOrdNameLE; infer_instance

/-- The ordering applied by `children` and `descendants_with_conn`:
`order_by_asc(Expr::cust(column))` when the strategy is `NumericColumn`,
then `order_by_asc(name)` in either case. -/
def applyOrder (cfg : ClosureTreeConfig) (rows : List Node) : List Node :=
  match cfg.order_strategy with
  | some (OrderStrategy.NumericColumn _) => List.insertionSort nodeOrdNameLE rows
  | _ => List.insertionSort nodeNameLE rows

/-- Embedding of `ensure_postgres` (`src/repository.rs`). -/
def ensure_postgres (backend : DbBackend) : Except ClosureTreeError Unit :=
  if backend = DbBackend.postgres then Except.ok ()
  else Except.error ClosureTreeError.unsupportedBackend

/-- Embedding of `find_child_by_name`: first row whose `name` matches and
whose `parent_id` matches (`IS NULL` when no parent is given). -/
def find_child_by_name (db : Db) (parent_id : Option Nat) (name : String) : Option Node :=
  db.nodes.find? (fun n => n.parent_id == parent_id && n.name == name)

/-- The id the store assigns to a newly inserted node row: one past the
largest id in the table (a `SERIAL` key in the test schema). -/
def freshId (db : Db) : Nat :=
  db.nodes.foldr (fun n acc => max n.id acc) 0 + 1

/-- The node row built by `insert_child`: fresh id, the given parent and
name; the numeric ordering column takes the store default. -/
def mkNode (db : Db) (parent_id : Option Nat) (name : String) : Node :=
  { id := freshId db, parent_id, name, ord := 0 }

def addNode (db : Db) (n : Node) : Db :=
  { db with nodes := db.nodes ++ [n] }

/-- The closure rows computed by `insert_hierarchy_rows`: the self edge,
then — when the node has a parent — one row per hierarchy row whose
descendant is the parent, with `generations + 1`, in table order. -/
def hierarchyRows (db : Db) (n : Node) (parent_id : Option Nat) : List Edge :=
  match parent_id with
  | none => [{ ancestor := n.id, descendant := n.id, generations := 0 }]
  | some p =>
    { ancestor := n.id, descendant := n.id, generations := 0 } ::
      (db.edges.filter (fun e => e.descendant == p)).map
        (fun e => { ancestor := e.ancestor, descendant := n.id, generations := e.generations + 1 })

def addEdges (db : Db) (rows : List Edge) : Db :=
  { db with edges := db.edges ++ rows }

/-- State effect of `insert_hierarchy_rows` (`src/repository.rs`): the
ancestor query and the one multi-row insert. -/
def insert_hierarchy_rows (db : Db) (n : Node) (parent_id : Option Nat) : Db :=
  addEdges db (hierarchyRows db n parent_id)

/-- State effect of `insert_child`: insert the node row, then its closure
rows, and return the created node. -/
def insert_child (db : Db) (parent_id : Option Nat) (name : String) : Db × Node :=
  let n := mkNode db parent_id name
  (insert_hierarchy_rows (addNode db n) n parent_id, n)

/-- Effect on the `Db` of the `find_or_create_by_path_on` loop when every
store call succeeds: walk the segments, looking up each child and
inserting it (node row plus closure rows) when absent.  Returns the final
state and the node of the last processed segment (`none` only when no
segment was processed). -/
def createWalk (db : Db) (parent_id : Option Nat) (cur : Option Node) :
    List String → Db × Option Node
  | [] => (db, cur)
  | s :: rest =>
    match find_child_by_name db parent_id s with
    | some m => createWalk db (some m.id) (some m) rest
    | none =>
      let r := insert_child db parent_id s
      createWalk r.1 (some r.2.id) (some r.2) rest

/-- The `find_by_path_on` loop when every store call succeeds: walk the
segments, failing fast on the first unmatched one. -/
def findWalk (db : Db) (parent_id : Option Nat) (cur : Option Node) :
    List String → Option Node
  | [] => cur
  | s :: rest =>
    match find_child_by_name db parent_id s with
    | some m => findWalk db (some m.id) (some m) rest
    | none => none

/-- Embedding of `descendants_with_conn`: hierarchy rows with the given
ancestor (excluding `generations = 0` when `exclude_root`), then the node
rows whose id is among the collected descendants, ordered; the second
query is skipped when no ids were collected. -/
def descendants_with_conn (cfg : ClosureTreeConfig) (db : Db) (ancestor_id : Nat)
    (exclude_root : Bool) : List Node :=
  let hrows := db.edges.filter (fun e => e.ancestor == ancestor_id)
  let hrows := if exclude_root then hrows.filter (fun e => e.generations > 0) else hrows
  let descendant_ids := hrows.map (fun e => e.descendant)
  if descendant_ids.isEmpty then []
  else applyOrder cfg (db.nodes.filter (fun n => descendant_ids.contains n.id))

/-- Embedding of `ClosureTreeRepository::children`: backend check, filter
on `parent_id = model.id`, numeric-column order when configured, then
name order. -/
def children (cfg : ClosureTreeConfig) (backend : DbBackend) (db : Db) (model : Node) :
    Except ClosureTreeError (List Node) :=
  match ensure_postgres backend with
  | Except.error e => Except.error e
  | Except.ok _ =>
    Except.ok (applyOrder cfg (db.nodes.filter (fun n => n.parent_id == some model.id)))

/-- Embedding of `ClosureTreeRepository::roots`: backend check, filter on
`parent_id IS NULL`, ordered by name only. -/
def roots (_cfg : ClosureTreeConfig) (backend : DbBackend) (db : Db) :
    Except ClosureTreeError (List Node) :=
  match ensure_postgres backend with
  | Except.error e => Except.error e
  | Except.ok _ =>
    Except.ok (List.insertionSort nodeNameLE (db.nodes.filter (fun n => n.parent_id == none)))

/-- Embedding of `ClosureTreeRepository::descendants`. -/
def descendants (cfg : ClosureTreeConfig) (backend : DbBackend) (db : Db) (model : Node) :
    Except ClosureTreeError (List Node) :=
  match ensure_postgres backend with
  | Except.error e => Except.error e
  | Except.ok _ => Except.ok (descendants_with_conn cfg db model.id true)

/-- Embedding of `ClosureTreeRepository::self_and_descendants`: the model
itself pushed first, then the `descendants_with_conn` result appended. -/
def self_and_descendants (cfg : ClosureTreeConfig) (backend : DbBackend) (db : Db)
    (model : Node) : Except ClosureTreeError (List Node) :=
  match ensure_postgres backend with
  | Except.error e => Except.error e
  | Except.ok _ => Except.ok (model :: descendants_with_conn cfg db model.id true)

/-! ## Store round trips and failure injection

Every `.await?` against the store (query, insert, raw statement, begin,
commit, rollback) is one numbered step.  A schedule `Sched` says which
steps fail; a failing step produces the wrapped store error
(`ClosureTreeError.database`). -/

def Sched : Type := Nat → Bool

/-- The schedule on which every store call succeeds. -/
def noFail : Sched := fun _ => false

/-- One store round trip: consult the schedule at the current step index
and advance it. -/
def tick (sched : Sched) (k : Nat) : Except ClosureTreeError Unit × Nat :=
  if sched k then (Except.error ClosureTreeError.database, k + 1)
  else (Except.ok (), k + 1)

/-- Embedding of `insert_child` with store steps: the node insert, then —
inside `insert_hierarchy_rows` — the ancestor query (only when a parent
is given) and the multi-row insert.  On failure the transaction-local
`Db` reached so far is returned alongside the error. -/
def insert_child_steps (sched : Sched) (db : Db) (k : Nat) (parent_id : Option Nat)
    (name : String) : Except ClosureTreeError Node × Db × Nat :=
  match tick sched k with
  | (Except.error e, k1) => (Except.error e, db, k1)
  | (Except.ok _, k1) =>
    let n := mkNode db parent_id name
    let db1 := addNode db n
    match parent_id with
    | none =>
      match tick sched k1 with
      | (Except.error e, k2) => (Except.error e, db1, k2)
      | (Except.ok _, k2) => (Except.ok n, addEdges db1 (hierarchyRows db1 n none), k2)
    | some p =>
      match tick sched k1 with
      | (Except.error e, k2) => (Except.error e, db1, k2)
      | (Except.ok _, k2) =>
        match tick sched k2 with
        | (Except.error e, k3) => (Except.error e, db1, k3)
        | (Except.ok _, k3) => (Except.ok n, addEdges db1 (hierarchyRows db1 n (some p)), k3)

/-- The `find_or_create_by_path_on` segment loop with store steps: one
query per segment, plus the insert steps when the child is absent. -/
def find_or_create_loop (sched : Sched) :
    Db → Nat → Option Nat → Option Node → List String →
      Except ClosureTreeError (Option Node) × Db × Nat
  | db, k, _, cur, [] => (Except.ok cur, db, k)
  | db, k, parent_id, _, s :: rest =>
    match tick sched k with
    | (Except.error e, k1) => (Except.error e, db, k1)
    | (Except.ok _, k1) =>
      match find_child_by_name db parent_id s with
      | some m => find_or_create_loop sched db k1 (some m.id) (some m) rest
      | none =>
        match insert_child_steps sched db k1 parent_id s with
        | (Except.error e, db1, k2) => (Except.error e, db1, k2)
        | (Except.ok n, db1, k2) => find_or_create_loop sched db1 k2 (some n.id) (some n) rest

/-- Embedding of `find_or_create_by_path_on`: run the loop from the root,
then `current.ok_or_else(invariant error)`. -/
def find_or_create_by_path_on (sched : Sched) (db : Db) (k : Nat) (segments : List String) :
    Except ClosureTreeError Node × Db × Nat :=
  match find_or_create_loop sched db k none none segments with
  | (Except.ok (some m), db1, k1) => (Except.ok m, db1, k1)
  | (Except.ok none, db1, k1) =>
    (Except.error (ClosureTreeError.invariant "path segments produced no model"), db1, k1)
  | (Except.error e, db1, k1) => (Except.error e, db1, k1)

/-- The `find_by_path_on` segment loop with store steps (read-only, so no
`Db` is returned). -/
def find_by_path_loop (sched : Sched) :
    Db → Nat → Option Nat → Option Node → List String →
      Except ClosureTreeError (Option Node) × Nat
  | _, k, _, cur, [] => (Except.ok cur, k)
  | db, k, parent_id, _, s :: rest =>
    match tick sched k with
    | (Except.error e, k1) => (Except.error e, k1)
    | (Except.ok _, k1) =>
      match find_child_by_name db parent_id s with
      | some m => find_by_path_loop sched db k1 (some m.id) (some m) rest
      | none => (Except.ok none, k1)

/-- Embedding of `find_by_path_on`: empty segments yield `Ok(None)`
before any query; otherwise run the loop. -/
def find_by_path_on (sched : Sched) (db : Db) (k : Nat) (segments : List String) :
    Except ClosureTreeError (Option Node) × Nat :=
  if segments.isEmpty then (Except.ok none, k)
  else find_by_path_loop sched db k none none segments

/-- Embedding of `ClosureTreeRepository::find_by_path`: backend check,
then the walk. -/
def find_by_path (backend : DbBackend) (sched : Sched) (db : Db) (k : Nat)
    (segments : List String) : Except ClosureTreeError (Option Node) × Nat :=
  match ensure_postgres backend with
  | Except.error e => (Except.error e, k)
  | Except.ok _ => find_by_path_on sched db k segments

/-! ## The locked transaction (`src/lock.rs`)

A `LockedTransaction` value holds the transaction-local `Db` and the
advisory-lock key when one was taken.  `commit` publishes the local `Db`
over the durable one; `rollback` (and any failure before commit) leaves
the durable `Db` untouched. -/

structure LockedTransaction where
  txn : Db
  key : Option String
deriving DecidableEq, Repr

/-- Embedding of `LockedTransaction::acquire`: begin the transaction (one
step); when the strategy is namespaced, execute the advisory-lock
statement (one step) and on its failure attempt a best-effort rollback
(one step, its error ignored) before propagating the error.  The durable
`Db` is returned unchanged in every case; on success the guard's
transaction state starts as a copy of it. -/
def LockedTransaction.acquire (strategy : AdvisoryLockStrategy) (sched : Sched)
    (db : Db) (k : Nat) : Except ClosureTreeError LockedTransaction × Db × Nat :=
  let key : Option String :=
    match strategy with
    | AdvisoryLockStrategy.Disabled => none
    | AdvisoryLockStrategy.Namespaced kk => some kk.as_str
  match tick sched k with
  | (Except.error e, k1) => (Except.error e, db, k1)
  | (Except.ok _, k1) =>
    match key with
    | none => (Except.ok { txn := db, key := none }, db, k1)
    | some s =>
      match tick sched k1 with
      | (Except.error e, k2) =>
        match tick sched k2 with
        | (_, k3) => (Except.error e, db, k3)
      | (Except.ok _, k2) => (Except.ok { txn := db, key := some s }, db, k2)

/-- Embedding of `LockedTransaction::commit`: when a key is held, execute
the advisory-unlock statement and propagate its failure (the `?` in the
source) — the transaction is then dropped without committing; otherwise
commit the transaction (one step), which on success publishes the
transaction-local `Db` as the durable state. -/
def LockedTransaction.commit (sched : Sched) (lt : LockedTransaction) (durable : Db)
    (k : Nat) : Except ClosureTreeError Unit × Db × Nat :=
  match lt.key with
  | some _ =>
    match tick sched k with
    | (Except.error e, k1) => (Except.error e, durable, k1)
    | (Except.ok _, k1) =>
      match tick sched k1 with
      | (Except.error e, k2) => (Except.error e, durable, k2)
      | (Except.ok _, k2) => (Except.ok (), lt.txn, k2)
  | none =>
    match tick sched k with
    | (Except.error e, k1) => (Except.error e, durable, k1)
    | (Except.ok _, k1) => (Except.ok (), lt.txn, k1)

/-- Embedding of `LockedTransaction::rollback`: when a key is held,
execute the advisory-unlock statement with its result discarded
(`let _ =` in the source), then roll the transaction back (one step,
failure propagated).  The durable `Db` is unchanged either way. -/
def LockedTransaction.rollback (sched : Sched) (lt : LockedTransaction) (durable : Db)
    (k : Nat) : Except ClosureTreeError Unit × Db × Nat :=
  match lt.key with
  | some _ =>
    match tick sched k with
    | (_, k1) =>
      match tick sched k1 with
      | (Except.error e, k2) => (Except.error e, durable, k2)
      | (Except.ok _, k2) => (Except.ok (), durable, k2)
  | none =>
    match tick sched k with
    | (Except.error e, k1) => (Except.error e, durable, k1)
    | (Except.ok _, k1) => (Except.ok (), durable, k1)

/-- Embedding of `find_or_create_with_guard`: run the walk on the guard's
transaction; commit on success (propagating a commit failure), roll back
on failure with the rollback result discarded. -/
def find_or_create_with_guard (sched : Sched) (lt : LockedTransaction) (durable : Db)
    (k : Nat) (segments : List String) : Except ClosureTreeError Node × Db × Nat :=
  match find_or_create_by_path_on sched lt.txn k segments with
  | (Except.ok m, txn1, k1) =>
    match LockedTransaction.commit sched { txn := txn1, key := lt.key } durable k1 with
    | (Except.ok _, db1, k2) => (Except.ok m, db1, k2)
    | (Except.error e, db1, k2) => (Except.error e, db1, k2)
  | (Except.error e, _, k1) =>
    match LockedTransaction.rollback sched lt durable k1 with
    | (_, db1, k2) => (Except.error e, db1, k2)

/-- Embedding of `ClosureTreeRepository::find_or_create_by_path`: backend
check, empty-path rejection (both before any store step), then acquire
the lock strategy's guard and run the guarded walk. -/
def find_or_create_by_path (strategy : AdvisoryLockStrategy) (backend : DbBackend)
    (sched : Sched) (db : Db) (k : Nat) (segments : List String) :
    Except ClosureTreeError Node × Db × Nat :=
  match ensure_postgres backend with
  | Except.error e => (Except.error e, db, k)
  | Except.ok _ =>
    if segments.isEmpty then (Except.error ClosureTreeError.emptyPath, db, k)
    else
      match LockedTransaction.acquire strategy sched db k with
      | (Except.error e, db1, k1) => (Except.error e, db1, k1)
      | (Except.ok lt, db1, k1) => find_or_create_with_guard sched lt db1 k1 segments

/-! ## The closure-table consistency invariant (§3 of the spec)

`edgesFor db i` is the edge set of the node with id `i` (the hierarchy
rows whose descendant is `i`, in table order); `expectedEdges db n` is
the set §3 prescribes for `n`: the self edge alone for a root, and the
self edge plus the parent's edge set shifted by one generation
otherwise. -/

def edgesFor (db : Db) (i : Nat) : List Edge :=
  db.edges.filter (fun e => e.descendant == i)

def expectedEdges (db : Db) (n : Node) : List Edge :=
  match n.parent_id with
  | none => [{ ancestor := n.id, descendant := n.id, generations := 0 }]
  | some p =>
    { ancestor := n.id, descendant := n.id, generations := 0 } ::
      (edgesFor db p).map
        (fun e => { ancestor := e.ancestor, descendant := n.id, generations := e.generations + 1 })

/-- A parent reference points at an existing node row (or is null). -/
def ParentValid (db : Db) (parent_id : Option Nat) : Prop :=
  match parent_id with
  | none => True
  | some p => ∃ m, m ∈ db.nodes ∧ m.id = p

instance (db : Db) (parent_id : Option Nat) : Decidable (ParentValid db parent_id) := by
  unfold ParentValid
  cases parent_id <;> infer_instance

/-- The closure-table consistency invariant: parent references resolve,
every edge row's descendant is an existing node, and every node's edge
set is exactly the §3 set. -/
def ClosureInvariant (db : Db) : Prop :=
  (∀ n, n ∈ db.nodes → ParentValid db n.parent_id) ∧
  (∀ e, e ∈ db.edges → ∃ m, m ∈ db.nodes ∧ m.id = e.descendant) ∧
  (∀ n, n ∈ db.nodes → edgesFor db n.id = expectedEdges db n)

instance (db : Db) : Decidable (ClosureInvariant db) := by
  unfold ClosureInvariant
  infer_instance

/-! ## The spec's words, for the refinement comparisons

These two definitions follow the claim text, not the source; they exist
to be compared with the embedded code. -/

/-- The ordering contract claimed for `children` AND `roots`: ascending
by the configured numeric column first when the strategy is
`NumericColumn`, then by name ascending; otherwise by name ascending. -/
def claimedOrderRel (cfg : ClosureTreeConfig) : Node → Node → Prop :=
  match cfg.order_strategy with
  | some (OrderStrategy.NumericColumn _) => nodeOrdNameLE
  | _ => nodeNameLE

instance (cfg : ClosureTreeConfig) : DecidableRel (claimedOrderRel cfg) := by
  unfold claimedOrderRel
  rcases cfg.order_strategy with _ | st
  · dsimp only; infer_instance
  · cases st <;> dsimp only <;> infer_instance

/-- Sorting rows by the claimed ordering contract. -/
def claimedOrdering (cfg : ClosureTreeConfig) (rows : List Node) : List Node :=
  List.insertionSort (claimedOrderRel cfg) rows

/-- A hexadecimal digit character (either case). -/
def isHexDigitChar (c : Char) : Bool :=
  (48 ≤ c.toNat && c.toNat ≤ 57) || (97 ≤ c.toNat && c.toNat ≤ 102) ||
    (65 ≤ c.toNat && c.toNat ≤ 70)

/-- The claimed advisory-lock key shape: exactly
`"<entity>::<hierarchy>::<8-hex-digit content hash>"`. -/
def claimedLockKeyFormat (entity hierarchy : String) (key : AdvisoryLockKey) : Prop :=
  ∃ hex : String, hex.length = 8 ∧ (∀ c, c ∈ hex.data → isHexDigitChar c = true) ∧
    key.value = entity ++ "::" ++ hierarchy ++ "::" ++ hex

/-! ## Concrete fixtures used by witnesses and counterexamples -/

/-- A configuration with a numeric ordering column configured. -/
def cfgNum : ClosureTreeConfig :=
  { entity_name := "node"
    hierarchy_name := "node_hierarchy"
    parent_column := "parent_id"
    name_column := "name"
    hierarchy_table := "node_hierarchies"
    dependent_behavior := DependentBehavior.Nullify
    order_strategy := some (OrderStrategy.NumericColumn "pos")
    advisory_lock_strategy := AdvisoryLockStrategy.Disabled }

def dbEmpty : Db := { nodes := [], edges := [] }

/-- Two root rows whose name order disagrees with their numeric-column
order. -/
def dbTwoRoots : Db :=
  { nodes :=
      [ { id := 1, parent_id := none, name := "a", ord := 5 },
        { id := 2, parent_id := none, name := "b", ord := 3 } ]
    edges :=
      [ { ancestor := 1, descendant := 1, generations := 0 },
        { ancestor := 2, descendant := 2, generations := 0 } ] }

/-- A one-node state, used as a transaction-local table distinct from the
durable one. -/
def dbOneNode : Db :=
  { nodes := [ { id := 1, parent_id := none, name := "a", ord := 0 } ]
    edges := [ { ancestor := 1, descendant := 1, generations := 0 } ] }

/-- Schedule failing exactly the first store step. -/
def schedFail0 : Sched := fun i => i == 0

/-- Schedule failing every store step. -/
def schedAllFail : Sched := fun _ => true

/-! ## Theorems -/

/-- C7: `find_or_create_by_path` with zero segments returns the
`EmptyPath` error before any lock or transaction (no store step is
consumed and the tables are untouched), and `find_by_path` with zero
segments returns `Ok(None)`, likewise without issuing any storage
query. -/
theorem empty_path_rejected_without_storage (strategy : AdvisoryLockStrategy)
    (sched : Sched) (db : Db) (k : Nat) :
    find_or_create_by_path strategy DbBackend.postgres sched db k [] =
      (Except.error ClosureTreeError.emptyPath, db, k) ∧
    find_by_path DbBackend.postgres sched db k [] = (Except.ok none, k) := by
  constructor <;> rfl

/-- C10: on a non-PostgreSQL backend, `find_or_create_by_path` with an
empty segment list fails with `UnsupportedBackend`, not `EmptyPath`: the
backend check runs first. -/
theorem unsupported_backend_precedes_empty_path (backend : DbBackend)
    (strategy : AdvisoryLockStrategy) (sched : Sched) (db : Db) (k : Nat)
    (h : backend ≠ DbBackend.postgres) :
    find_or_create_by_path strategy backend sched db k [] =
      (Except.error ClosureTreeError.unsupportedBackend, db, k) := by
  cases backend
  · exact absurd rfl h
  · rfl
  · rfl

/-- Witness for C10 at the MySQL backend on an empty store. -/
theorem unsupported_backend_precedes_empty_path_witness :
    DbBackend.mysql ≠ DbBackend.postgres ∧
    find_or_create_by_path AdvisoryLockStrategy.Disabled DbBackend.mysql noFail dbEmpty 0 [] =
      (Except.error ClosureTreeError.unsupportedBackend, dbEmpty, 0) :=
  ⟨by decide,
    unsupported_backend_precedes_empty_path DbBackend.mysql AdvisoryLockStrategy.Disabled
      noFail dbEmpty 0 (by decide)⟩

/-- C8: `self_and_descendants` is the given node prepended to the
`descendants` result, on every backend outcome and for every ordering
strategy — the node is pushed first and the sorted descendant list is
appended after it. -/
theorem self_and_descendants_prepends (cfg : ClosureTreeConfig) (backend : DbBackend)
    (db : Db) (model : Node) :
    self_and_descendants cfg backend db model =
      (match descendants cfg backend db model with
       | Except.ok l => Except.ok (model :: l)
       | Except.error e => Except.error e) := by
  cases backend <;> rfl

/-! ### Ordering: totality and transitivity of the row orders -/

theorem charListLe_total : ∀ as bs, charListLe as bs = true ∨ charListLe bs as = true
  | [], _ => Or.inl rfl
  | _ :: _, [] => Or.inr rfl
  | a :: as, b :: bs => by
    rcases Nat.lt_trichotomy a.toNat b.toNat with h | h | h
    · left
      simp [charListLe, h]
    · have h1 : ¬ a.toNat < b.toNat := by omega
      have h2 : ¬ b.toNat < a.toNat := by omega
      rcases charListLe_total as bs with hr | hr
      · left
        simp [charListLe, h1, h2, hr]
      · right
        simp [charListLe, h1, h2, hr]
    · right
      simp [charListLe, h]

theorem charListLe_trans :
    ∀ as bs cs, charListLe as bs = true → charListLe bs cs = true → charListLe as cs = true
  | [], _, _ => by intro _ _; rfl
  | _ :: _, [], _ => by intro h _; simp [charListLe] at h
  | _ :: _, _ :: _, [] => by intro _ h; simp [charListLe] at h
  | a :: as, b :: bs, c :: cs => by
    intro h1 h2
    simp only [charListLe] at h1 h2 ⊢
    split_ifs at h1 h2 ⊢ with hab hba hbc hcb hac hca
    all_goals first
      | rfl
      | omega
      | exact h1
      | exact h2
      | (exact charListLe_trans as bs cs h1 h2)

instance : IsTotal Node nodeNameLE :=
  ⟨fun a b => charListLe_total a.name.data b.name.data⟩

instance : IsTrans Node nodeNameLE :=
  ⟨fun a b c h1 h2 => charListLe_trans a.name.data b.name.data c.name.data h1 h2⟩

instance : IsTotal Node nodeOrdNameLE := by
  constructor
  intro a b
  rcases Int.lt_trichotomy a.ord b.ord with h | h | h
  · exact Or.inl (Or.inl h)
  · rcases charListLe_total a.name.data b.name.data with hr | hr
    · exact Or.inl (Or.inr ⟨h, hr⟩)
    · exact Or.inr (Or.inr ⟨h.symm, hr⟩)
  · exact Or.inr (Or.inl h)

instance : IsTrans Node nodeOrdNameLE := by
  constructor
  intro a b c h1 h2
  rcases h1 with h1 | ⟨he1, hn1⟩
  · rcases h2 with h2 | ⟨he2, hn2⟩
    · exact Or.inl (lt_trans h1 h2)
    · exact Or.inl (he2 ▸ h1)
  · rcases h2 with h2 | ⟨he2, hn2⟩
    · exact Or.inl (he1 ▸ h2)
    · exact Or.inr ⟨he1.trans he2, charListLe_trans _ _ _ hn1 hn2⟩

/-- C4 (amended): `children` returns exactly the rows whose `parent_id`
is the given node's id, sorted by the claimed ordering contract (numeric
column ascending first when configured, then name ascending); `roots`
returns exactly the rows with null `parent_id`, but sorted by name
ascending only — the numeric-column strategy is not applied to
`roots`. -/
theorem children_and_roots_ordering (cfg : ClosureTreeConfig) (db : Db) (model : Node) :
    ∃ lc lr,
      children cfg DbBackend.postgres db model = Except.ok lc ∧
      lc.Perm (db.nodes.filter (fun n => n.parent_id == some model.id)) ∧
      List.Sorted (claimedOrderRel cfg) lc ∧
      roots cfg DbBackend.postgres db = Except.ok lr ∧
      lr.Perm (db.nodes.filter (fun n => n.parent_id == none)) ∧
      List.Sorted nodeNameLE lr := by
  refine ⟨applyOrder cfg (db.nodes.filter (fun n => n.parent_id == some model.id)),
    List.insertionSort nodeNameLE (db.nodes.filter (fun n => n.parent_id == none)),
    rfl, ?_, ?_, rfl, List.perm_insertionSort _ _, List.sorted_insertionSort _ _⟩
  · unfold applyOrder
    rcases hs : cfg.order_strategy with _ | st
    · exact List.perm_insertionSort _ _
    · cases st <;> exact List.perm_insertionSort _ _
  · unfold applyOrder claimedOrderRel
    rcases hs : cfg.order_strategy with _ | st
    · exact List.sorted_insertionSort _ _
    · cases st <;> exact List.sorted_insertionSort _ _

/-- C4 counterexample: with a numeric ordering strategy configured,
`roots` does not return the rows in the claimed contract order — it
sorts by name only, and on `dbTwoRoots` (where numeric order and name
order disagree) the two orders differ. -/
theorem roots_ignore_numeric_order :
    ¬ (roots cfgNum DbBackend.postgres dbTwoRoots =
        Except.ok (claimedOrdering cfgNum
          (dbTwoRoots.nodes.filter (fun n => n.parent_id == none)))) := by
  decide

/-- C5 (amended): when a lock key is held, a failure of the
advisory-unlock statement during `commit` aborts the commit — the
release error propagates and the transaction is dropped without
committing, so the durable tables keep their pre-transaction state;
during `rollback`, by contrast, a release failure is swallowed and the
rollback proceeds. -/
theorem commit_release_failure_aborts (sched : Sched) (txnDb durable : Db) (s : String)
    (k : Nat) (hfail : sched k = true) :
    LockedTransaction.commit sched { txn := txnDb, key := some s } durable k =
      (Except.error ClosureTreeError.database, durable, k + 1) ∧
    (sched (k + 1) = false →
      LockedTransaction.rollback sched { txn := txnDb, key := some s } durable k =
        (Except.ok (), durable, k + 2)) := by
  constructor
  · simp [LockedTransaction.commit, tick, hfail]
  · intro hok
    simp [LockedTransaction.rollback, tick, hfail, hok]

/-- Witness for C5's amended statement: on a schedule failing exactly the
first step, commit aborts with the store error and the durable state
stays `dbEmpty` (not the transaction's `dbOneNode`), while rollback
succeeds despite the failed release. -/
theorem commit_release_failure_aborts_witness :
    schedFail0 0 = true ∧
    LockedTransaction.commit schedFail0 { txn := dbOneNode, key := some "lk" } dbEmpty 0 =
      (Except.error ClosureTreeError.database, dbEmpty, 1) ∧
    (schedFail0 1 = false →
      LockedTransaction.rollback schedFail0 { txn := dbOneNode, key := some "lk" } dbEmpty 0 =
        (Except.ok (), dbEmpty, 2)) :=
  ⟨rfl, commit_release_failure_aborts schedFail0 dbOneNode dbEmpty "lk" 0 rfl⟩

/-- C5 counterexample: at a concrete input whose advisory-unlock
statement fails, `commit` does not commit — it returns the release error
and the durable state is left unchanged rather than set to the
transaction's state, refuting the claim that a release failure never
aborts the commit. -/
theorem commit_release_failure_counterexample :
    LockedTransaction.commit schedFail0 { txn := dbOneNode, key := some "lk" } dbEmpty 0 =
      (Except.error ClosureTreeError.database, dbEmpty, 1) ∧
    dbEmpty ≠ dbOneNode := by
  decide

/-! ### Atomicity: the durable tables survive every failure -/

theorem tick_cases (sched : Sched) (k : Nat) :
    (sched k = true ∧ tick sched k = (Except.error ClosureTreeError.database, k + 1)) ∨
    (sched k = false ∧ tick sched k = (Except.ok (), k + 1)) := by
  by_cases h : sched k = true
  · exact Or.inl ⟨h, by simp [tick, h]⟩
  · have h0 : sched k = false := by
      cases hs : sched k
      · rfl
      · exact absurd hs h
    exact Or.inr ⟨h0, by simp [tick, h0]⟩

/-- `rollback` never changes the durable tables. -/
theorem rollback_keeps_durable (sched : Sched) (lt : LockedTransaction) (durable : Db)
    (k : Nat) : (LockedTransaction.rollback sched lt durable k).2.1 = durable := by
  obtain ⟨txn, key⟩ := lt
  cases key
  · rcases tick_cases sched k with ⟨_, ht⟩ | ⟨_, ht⟩ <;>
      simp [LockedTransaction.rollback, ht]
  · rcases tick_cases sched k with ⟨_, ht⟩ | ⟨_, ht⟩ <;>
      rcases tick_cases sched (k + 1) with ⟨_, ht2⟩ | ⟨_, ht2⟩ <;>
        simp [LockedTransaction.rollback, ht, ht2]

/-- `commit` either publishes the transaction state or fails leaving the
durable tables unchanged. -/
theorem commit_durable_cases (sched : Sched) (txnDb : Db) (key : Option String)
    (durable : Db) (k : Nat) :
    (∃ k1, LockedTransaction.commit sched { txn := txnDb, key := key } durable k =
      (Except.ok (), txnDb, k1)) ∨
    (∃ k1, LockedTransaction.commit sched { txn := txnDb, key := key } durable k =
      (Except.error ClosureTreeError.database, durable, k1)) := by
  cases key
  · rcases tick_cases sched k with ⟨_, ht⟩ | ⟨_, ht⟩
    · exact Or.inr ⟨k + 1, by simp [LockedTransaction.commit, ht]⟩
    · exact Or.inl ⟨k + 1, by simp [LockedTransaction.commit, ht]⟩
  · rcases tick_cases sched k with ⟨_, ht⟩ | ⟨_, ht⟩
    · exact Or.inr ⟨k + 1, by simp [LockedTransaction.commit, ht]⟩
    · rcases tick_cases sched (k + 1) with ⟨_, ht2⟩ | ⟨_, ht2⟩
      · exact Or.inr ⟨k + 2, by simp [LockedTransaction.commit, ht, ht2]⟩
      · exact Or.inl ⟨k + 2, by simp [LockedTransaction.commit, ht, ht2]⟩

/-- `acquire` never changes the durable tables, and a successful guard
starts from a copy of them. -/
theorem acquire_cases (strategy : AdvisoryLockStrategy) (sched : Sched) (db : Db) (k : Nat) :
    (∃ key k1, LockedTransaction.acquire strategy sched db k =
      (Except.ok { txn := db, key := key }, db, k1)) ∨
    (∃ e k1, LockedTransaction.acquire strategy sched db k = (Except.error e, db, k1)) := by
  cases strategy with
  | Disabled =>
    rcases tick_cases sched k with ⟨_, ht⟩ | ⟨_, ht⟩
    · exact Or.inr ⟨ClosureTreeError.database, k + 1, by simp [LockedTransaction.acquire, ht]⟩
    · exact Or.inl ⟨none, k + 1, by simp [LockedTransaction.acquire, ht]⟩
  | Namespaced kk =>
    rcases tick_cases sched k with ⟨_, ht⟩ | ⟨_, ht⟩
    · exact Or.inr ⟨ClosureTreeError.database, k + 1, by simp [LockedTransaction.acquire, ht]⟩
    · rcases tick_cases sched (k + 1) with ⟨_, ht2⟩ | ⟨_, ht2⟩
      · rcases tick_cases sched (k + 2) with ⟨_, ht3⟩ | ⟨_, ht3⟩
        · exact Or.inr ⟨ClosureTreeError.database, k + 3,
            by simp [LockedTransaction.acquire, ht, ht2, ht3]⟩
        · exact Or.inr ⟨ClosureTreeError.database, k + 3,
            by simp [LockedTransaction.acquire, ht, ht2, ht3]⟩
      · exact Or.inl ⟨some kk.as_str, k + 2, by simp [LockedTransaction.acquire, ht, ht2]⟩

/-- A failing guarded walk leaves the durable tables unchanged. -/
theorem with_guard_error_keeps_durable (sched : Sched) (lt : LockedTransaction)
    (durable : Db) (k : Nat) (segments : List String) (e : ClosureTreeError) (d : Db)
    (k1 : Nat)
    (h : find_or_create_with_guard sched lt durable k segments = (Except.error e, d, k1)) :
    d = durable := by
  rcases hw : find_or_create_by_path_on sched lt.txn k segments with ⟨r, db1, kx⟩
  cases r with
  | ok m =>
    rcases commit_durable_cases sched db1 lt.key durable kx with ⟨kc, hc⟩ | ⟨kc, hc⟩ <;>
      simp only [find_or_create_with_guard, hw, hc] at h
    · cases h
    · cases h
      rfl
  | error e1 =>
    rcases hr : LockedTransaction.rollback sched lt durable kx with ⟨r2, d2, k2⟩
    have hd : d2 = durable := by
      have h3 := rollback_keeps_durable sched lt durable kx
      rw [hr] at h3
      exact h3
    simp only [find_or_create_with_guard, hw, hr] at h
    cases h
    exact hd

/-- C2: whenever `find_or_create_by_path` fails — at the backend check,
the empty-path check, lock acquisition, any lookup or insert of the
walk, or commit — the durable node and hierarchy tables are exactly the
tables from before the call. -/
theorem find_or_create_failure_rolls_back (strategy : AdvisoryLockStrategy)
    (backend : DbBackend) (sched : Sched) (db : Db) (k : Nat) (segments : List String)
    (e : ClosureTreeError) (db2 : Db) (k2 : Nat)
    (h : find_or_create_by_path strategy backend sched db k segments =
      (Except.error e, db2, k2)) :
    db2 = db := by
  unfold find_or_create_by_path at h
  cases backend
  case mysql =>
    simp only [ensure_postgres, reduceCtorEq, reduceIte] at h
    cases h
    rfl
  case sqlite =>
    simp only [ensure_postgres, reduceCtorEq, reduceIte] at h
    cases h
    rfl
  case postgres =>
    simp only [ensure_postgres, reduceIte] at h
    by_cases hseg : segments.isEmpty
    · simp only [hseg, reduceIte] at h
      cases h
      rfl
    · simp only [hseg, Bool.false_eq_true, reduceIte] at h
      rcases acquire_cases strategy sched db k with ⟨key, k1, ha⟩ | ⟨ea, k1, ha⟩ <;>
        simp only [ha] at h
      · exact with_guard_error_keeps_durable sched _ db k1 segments e db2 k2 h
      · cases h
        rfl

/-- Witness for C2: a run on a one-node table whose ancestor query (the
fifth store step) fails mid-walk, after a node insert already happened
inside the transaction; the durable tables come back unchanged. -/
theorem find_or_create_failure_rolls_back_witness :
    find_or_create_by_path AdvisoryLockStrategy.Disabled DbBackend.postgres
        (fun i => i == 4) dbOneNode 0 ["a", "b"] =
      (Except.error ClosureTreeError.database, dbOneNode, 6) ∧ dbOneNode = dbOneNode :=
  ⟨by decide,
    find_or_create_failure_rolls_back AdvisoryLockStrategy.Disabled DbBackend.postgres
      (fun i => i == 4) dbOneNode 0 ["a", "b"] ClosureTreeError.database dbOneNode 6
      (by decide)⟩

/-! ### The walk under a failure-free schedule -/

theorem tick_noFail (k : Nat) : tick noFail k = (Except.ok (), k + 1) := by
  simp [tick, noFail]

/-- A found child matches the queried parent and name. -/
theorem find_child_by_name_eq (db : Db) (parent_id : Option Nat) (name : String) (m : Node)
    (h : find_child_by_name db parent_id name = some m) :
    m.parent_id = parent_id ∧ m.name = name := by
  have hp := List.find?_some h
  simp only [Bool.and_eq_true, beq_iff_eq] at hp
  exact hp

/-- One unfolding of the create loop at a cons cell, with the tail kept
abstract. -/
theorem find_or_create_loop_cons (sched : Sched) (db : Db) (k : Nat)
    (parent_id : Option Nat) (cur : Option Node) (s : String) (rest : List String) :
    find_or_create_loop sched db k parent_id cur (s :: rest) =
      (match tick sched k with
       | (Except.error e, k1) => (Except.error e, db, k1)
       | (Except.ok _, k1) =>
         match find_child_by_name db parent_id s with
         | some m => find_or_create_loop sched db k1 (some m.id) (some m) rest
         | none =>
           match insert_child_steps sched db k1 parent_id s with
           | (Except.error e, db1, k2) => (Except.error e, db1, k2)
           | (Except.ok n, db1, k2) => find_or_create_loop sched db1 k2 (some n.id) (some n) rest) :=
  rfl

/-- With no failing step, `insert_child_steps` succeeds and its effect is
exactly the pure `insert_child`. -/
theorem insert_child_steps_noFail (db : Db) (k : Nat) (parent_id : Option Nat)
    (name : String) :
    ∃ k1, insert_child_steps noFail db k parent_id name =
      (Except.ok (insert_child db parent_id name).2, (insert_child db parent_id name).1, k1) := by
  cases parent_id with
  | none =>
    exact ⟨k + 2, by
      simp [insert_child_steps, tick_noFail, insert_child, insert_hierarchy_rows]⟩
  | some p =>
    exact ⟨k + 3, by
      simp [insert_child_steps, tick_noFail, insert_child, insert_hierarchy_rows]⟩

/-- With no failing step, the create loop on a non-empty segment list
always ends with a node, the one of the last segment. -/
theorem create_loop_noFail :
    ∀ (segments : List String) (db : Db) (k : Nat) (parent_id : Option Nat)
      (cur : Option Node), segments ≠ [] →
      ∃ m db1 k1, find_or_create_loop noFail db k parent_id cur segments =
        (Except.ok (some m), db1, k1) ∧ segments.getLast? = some m.name
  | [], _, _, _, _, h => absurd rfl h
  | s :: rest, db, k, parent_id, cur, _ => by
    cases rest with
    | nil =>
      cases hf : find_child_by_name db parent_id s with
      | some m =>
        refine ⟨m, db, k + 1, ?_, ?_⟩
        · rw [find_or_create_loop_cons, tick_noFail]
          simp only [hf]
          rfl
        · simp [(find_child_by_name_eq db parent_id s m hf).2]
      | none =>
        obtain ⟨k1, hi⟩ := insert_child_steps_noFail db (k + 1) parent_id s
        refine ⟨(insert_child db parent_id s).2, (insert_child db parent_id s).1, k1, ?_, ?_⟩
        · rw [find_or_create_loop_cons, tick_noFail]
          simp only [hf, hi]
          rfl
        · simp [insert_child, mkNode]
    | cons r t =>
      cases hf : find_child_by_name db parent_id s with
      | some m =>
        obtain ⟨m1, db1, k1, hl, hn⟩ :=
          create_loop_noFail (r :: t) db (k + 1) (some m.id) (some m) (by simp)
        refine ⟨m1, db1, k1, ?_, ?_⟩
        · rw [find_or_create_loop_cons, tick_noFail]
          simp only [hf]
          exact hl
        · rw [List.getLast?_cons_cons]
          exact hn
      | none =>
        obtain ⟨k1, hi⟩ := insert_child_steps_noFail db (k + 1) parent_id s
        obtain ⟨m1, db1, k2, hl, hn⟩ :=
          create_loop_noFail (r :: t) (insert_child db parent_id s).1 k1
            (some (insert_child db parent_id s).2.id) (some (insert_child db parent_id s).2)
            (by simp)
        refine ⟨m1, db1, k2, ?_, ?_⟩
        · rw [find_or_create_loop_cons, tick_noFail]
          simp only [hf, hi]
          exact hl
        · rw [List.getLast?_cons_cons]
          exact hn

/-- C9: on a non-empty segment list with every store call succeeding,
`find_or_create_by_path_on` returns `Ok` with the node of the last
segment — the final invariant-error branch ("path segments produced no
model") is unreachable. -/
theorem nonempty_walk_never_hits_invariant_branch (db : Db) (k : Nat)
    (segments : List String) (h : segments ≠ []) :
    ∃ m db1 k1, find_or_create_by_path_on noFail db k segments = (Except.ok m, db1, k1) ∧
      segments.getLast? = some m.name := by
  obtain ⟨m, db1, k1, hl, hn⟩ := create_loop_noFail segments db k none none h
  exact ⟨m, db1, k1, by simp [find_or_create_by_path_on, hl], hn⟩

/-- Witness for C9 on the segment list `["x"]` over an empty store. -/
theorem nonempty_walk_never_hits_invariant_branch_witness :
    ∃ m db1 k1, find_or_create_by_path_on noFail dbEmpty 0 ["x"] = (Except.ok m, db1, k1) ∧
      ["x"].getLast? = some m.name :=
  nonempty_walk_never_hits_invariant_branch dbEmpty 0 ["x"] (by decide)

/-! ### The path round trip -/

theorem createWalk_cons (db : Db) (parent_id : Option Nat) (cur : Option Node) (s : String)
    (rest : List String) :
    createWalk db parent_id cur (s :: rest) =
      (match find_child_by_name db parent_id s with
       | some m => createWalk db (some m.id) (some m) rest
       | none =>
         createWalk (insert_child db parent_id s).1 (some (insert_child db parent_id s).2.id)
           (some (insert_child db parent_id s).2) rest) :=
  rfl

theorem findWalk_cons (db : Db) (parent_id : Option Nat) (cur : Option Node) (s : String)
    (rest : List String) :
    findWalk db parent_id cur (s :: rest) =
      (match find_child_by_name db parent_id s with
       | some m => findWalk db (some m.id) (some m) rest
       | none => none) :=
  rfl

theorem find_by_path_loop_cons (sched : Sched) (db : Db) (k : Nat) (parent_id : Option Nat)
    (cur : Option Node) (s : String) (rest : List String) :
    find_by_path_loop sched db k parent_id cur (s :: rest) =
      (match tick sched k with
       | (Except.error e, k1) => (Except.error e, k1)
       | (Except.ok _, k1) =>
         match find_child_by_name db parent_id s with
         | some m => find_by_path_loop sched db k1 (some m.id) (some m) rest
         | none => (Except.ok none, k1)) :=
  rfl

theorem insert_child_nodes (db : Db) (parent_id : Option Nat) (name : String) :
    (insert_child db parent_id name).1.nodes = db.nodes ++ [(insert_child db parent_id name).2] :=
  rfl

/-- The walk only appends node rows: the final table extends the initial
one. -/
theorem createWalk_nodes_extend :
    ∀ (segments : List String) (db : Db) (parent_id : Option Nat) (cur : Option Node),
      ∃ tail, (createWalk db parent_id cur segments).1.nodes = db.nodes ++ tail
  | [], db, _, _ => ⟨[], by simp [createWalk]⟩
  | s :: rest, db, parent_id, cur => by
    cases hf : find_child_by_name db parent_id s with
    | some m =>
      rw [createWalk_cons, hf]
      exact createWalk_nodes_extend rest db (some m.id) (some m)
    | none =>
      rw [createWalk_cons, hf]
      obtain ⟨tail, ht⟩ := createWalk_nodes_extend rest (insert_child db parent_id s).1
        (some (insert_child db parent_id s).2.id) (some (insert_child db parent_id s).2)
      refine ⟨(insert_child db parent_id s).2 :: tail, ?_⟩
      rw [ht, insert_child_nodes, List.append_assoc, List.singleton_append]

/-- Replaying the walk's segments on the state it produced finds exactly
the nodes the walk passed through: found nodes are still the first match
(the table only grew at the tail), and created nodes are the first match
among the appended rows. -/
theorem createWalk_roundtrip :
    ∀ (segments : List String) (db : Db) (parent_id : Option Nat) (cur : Option Node)
      (db1 : Db) (r : Option Node),
      createWalk db parent_id cur segments = (db1, r) →
      findWalk db1 parent_id cur segments = r
  | [], db, _, cur, db1, r => by
    intro h
    simp only [createWalk] at h
    cases h
    rfl
  | s :: rest, db, parent_id, cur, db1, r => by
    intro h
    cases hf : find_child_by_name db parent_id s with
    | some m =>
      rw [createWalk_cons, hf] at h
      have h2 : createWalk db (some m.id) (some m) rest = (db1, r) := h
      have hext := createWalk_nodes_extend rest db (some m.id) (some m)
      rw [h2] at hext
      obtain ⟨tail, ht⟩ := hext
      simp only at ht
      have hfind : find_child_by_name db1 parent_id s = some m := by
        unfold find_child_by_name at hf ⊢
        rw [ht, List.find?_append, hf]
        rfl
      rw [findWalk_cons, hfind]
      exact createWalk_roundtrip rest db (some m.id) (some m) db1 r h2
    | none =>
      rw [createWalk_cons, hf] at h
      have h2 : createWalk (insert_child db parent_id s).1
          (some (insert_child db parent_id s).2.id)
          (some (insert_child db parent_id s).2) rest = (db1, r) := h
      have hext := createWalk_nodes_extend rest (insert_child db parent_id s).1
        (some (insert_child db parent_id s).2.id) (some (insert_child db parent_id s).2)
      rw [h2] at hext
      obtain ⟨tail, ht⟩ := hext
      simp only at ht
      rw [insert_child_nodes, List.append_assoc, List.singleton_append] at ht
      have hfind : find_child_by_name db1 parent_id s =
          some (insert_child db parent_id s).2 := by
        unfold find_child_by_name at hf ⊢
        rw [ht, List.find?_append, hf]
        have hpred : ((insert_child db parent_id s).2.parent_id == parent_id &&
            (insert_child db parent_id s).2.name == s) = true := by
          simp [insert_child, mkNode]
        exact @List.find?_cons_of_pos Node (fun n => n.parent_id == parent_id && n.name == s)
          (insert_child db parent_id s).2 tail hpred
      rw [findWalk_cons, hfind]
      exact createWalk_roundtrip rest (insert_child db parent_id s).1
        (some (insert_child db parent_id s).2.id) (some (insert_child db parent_id s).2)
        db1 r h2

/-- A successful `insert_child_steps` has exactly the pure
`insert_child` outcome. -/
theorem insert_child_steps_ok (sched : Sched) (db : Db) (k : Nat) (parent_id : Option Nat)
    (name : String) (n : Node) (db1 : Db) (k1 : Nat)
    (h : insert_child_steps sched db k parent_id name = (Except.ok n, db1, k1)) :
    n = (insert_child db parent_id name).2 ∧ db1 = (insert_child db parent_id name).1 := by
  cases parent_id with
  | none =>
    rcases tick_cases sched k with ⟨_, ht⟩ | ⟨_, ht⟩ <;>
      simp only [insert_child_steps, ht] at h
    · cases h
    · rcases tick_cases sched (k + 1) with ⟨_, ht2⟩ | ⟨_, ht2⟩ <;> simp only [ht2] at h
      · cases h
      · cases h
        exact ⟨rfl, rfl⟩
  | some p =>
    rcases tick_cases sched k with ⟨_, ht⟩ | ⟨_, ht⟩ <;>
      simp only [insert_child_steps, ht] at h
    · cases h
    · rcases tick_cases sched (k + 1) with ⟨_, ht2⟩ | ⟨_, ht2⟩ <;> simp only [ht2] at h
      · cases h
      · rcases tick_cases sched (k + 2) with ⟨_, ht3⟩ | ⟨_, ht3⟩ <;> simp only [ht3] at h
        · cases h
        · cases h
          exact ⟨rfl, rfl⟩

/-- A successful create loop run has exactly the pure `createWalk`
outcome. -/
theorem create_loop_ok_pure :
    ∀ (segments : List String) (sched : Sched) (db : Db) (k : Nat) (parent_id : Option Nat)
      (cur : Option Node) (r : Option Node) (db1 : Db) (k1 : Nat),
      find_or_create_loop sched db k parent_id cur segments = (Except.ok r, db1, k1) →
      createWalk db parent_id cur segments = (db1, r)
  | [], sched, db, k, parent_id, cur, r, db1, k1 => by
    intro h
    simp only [find_or_create_loop] at h
    cases h
    rfl
  | s :: rest, sched, db, k, parent_id, cur, r, db1, k1 => by
    intro h
    rw [find_or_create_loop_cons] at h
    rcases tick_cases sched k with ⟨_, ht⟩ | ⟨_, ht⟩ <;> rw [ht] at h
    · simp at h
    · cases hf : find_child_by_name db parent_id s with
      | some m =>
        rw [hf] at h
        have h2 : find_or_create_loop sched db (k + 1) (some m.id) (some m) rest =
            (Except.ok r, db1, k1) := h
        rw [createWalk_cons, hf]
        exact create_loop_ok_pure rest sched db (k + 1) (some m.id) (some m) r db1 k1 h2
      | none =>
        rw [hf] at h
        have h3 : (match insert_child_steps sched db (k + 1) parent_id s with
            | (Except.error e, dbe, ke) =>
              ((Except.error e : Except ClosureTreeError (Option Node)), dbe, ke)
            | (Except.ok n, dbn, kn) =>
              find_or_create_loop sched dbn kn (some n.id) (some n) rest) =
            (Except.ok r, db1, k1) := h
        rcases hi : insert_child_steps sched db (k + 1) parent_id s with ⟨ri, dbi, ki⟩
        rw [hi] at h3
        cases ri with
        | error e => cases h3
        | ok n =>
          have h2 : find_or_create_loop sched dbi ki (some n.id) (some n) rest =
              (Except.ok r, db1, k1) := h3
          obtain ⟨hn, hdb⟩ := insert_child_steps_ok sched db (k + 1) parent_id s n dbi ki hi
          rw [createWalk_cons, hf]
          subst hn hdb
          exact create_loop_ok_pure rest sched _ ki _ _ r db1 k1 h2

/-- The failure-free find loop computes the pure `findWalk`. -/
theorem find_loop_noFail :
    ∀ (segments : List String) (db : Db) (k : Nat) (parent_id : Option Nat)
      (cur : Option Node),
      ∃ k1, find_by_path_loop noFail db k parent_id cur segments =
        (Except.ok (findWalk db parent_id cur segments), k1)
  | [], _, k, _, _ => ⟨k, rfl⟩
  | s :: rest, db, k, parent_id, cur => by
    cases hf : find_child_by_name db parent_id s with
    | some m =>
      obtain ⟨k1, hr⟩ := find_loop_noFail rest db (k + 1) (some m.id) (some m)
      refine ⟨k1, ?_⟩
      rw [find_by_path_loop_cons, tick_noFail, findWalk_cons]
      simp only [hf]
      exact hr
    | none =>
      refine ⟨k + 1, ?_⟩
      rw [find_by_path_loop_cons, tick_noFail, findWalk_cons]
      simp only [hf]

/-- A successful `find_or_create_by_path_on` run has exactly the pure
`createWalk` outcome. -/
theorem path_on_ok_pure (sched : Sched) (db : Db) (k : Nat) (segments : List String)
    (m : Node) (db1 : Db) (kx : Nat)
    (h : find_or_create_by_path_on sched db k segments = (Except.ok m, db1, kx)) :
    createWalk db none none segments = (db1, some m) := by
  unfold find_or_create_by_path_on at h
  rcases hl : find_or_create_loop sched db k none none segments with ⟨rl, dbl, kl⟩
  rw [hl] at h
  cases rl with
  | error e => cases h
  | ok o =>
    cases o with
    | none => cases h
    | some mm =>
      have h2 : ((Except.ok mm : Except ClosureTreeError Node), dbl, kl) =
          (Except.ok m, db1, kx) := h
      cases h2
      exact create_loop_ok_pure segments sched db k none none (some m) db1 kx hl

/-- A successful guarded walk publishes exactly the pure walk's state and
node. -/
theorem with_guard_ok_pure (sched : Sched) (txn0 : Db) (key : Option String) (durable : Db)
    (k : Nat) (segments : List String) (n : Node) (db2 : Db) (k2 : Nat)
    (h : find_or_create_with_guard sched { txn := txn0, key := key } durable k segments =
      (Except.ok n, db2, k2)) :
    createWalk txn0 none none segments = (db2, some n) := by
  rcases hw : find_or_create_by_path_on sched txn0 k segments with ⟨r, db1, kx⟩
  cases r with
  | error e1 =>
    rcases hr : LockedTransaction.rollback sched { txn := txn0, key := key } durable kx
      with ⟨r2, d2, kr⟩
    simp only [find_or_create_with_guard, hw, hr] at h
    cases h
  | ok m =>
    rcases commit_durable_cases sched db1 key durable kx with ⟨kc, hc⟩ | ⟨kc, hc⟩ <;>
      simp only [find_or_create_with_guard, hw, hc] at h
    · have hm : m = n := by cases h; rfl
      have hdb : db1 = db2 := by cases h; rfl
      rw [← hdb, ← hm]
      exact path_on_ok_pure sched txn0 k segments m db1 kx hw
    · cases h

/-- C3: whenever `find_or_create_by_path` succeeds with node `n`, a
subsequent `find_by_path` over the resulting state (with no intervening
mutation and a failure-free read) returns `Some n` — the same node, by
the same id. -/
theorem path_round_trip (strategy : AdvisoryLockStrategy) (sched : Sched) (db : Db) (k : Nat)
    (segments : List String) (n : Node) (db2 : Db) (k2 : Nat)
    (h : find_or_create_by_path strategy DbBackend.postgres sched db k segments =
      (Except.ok n, db2, k2)) :
    ∃ k3, find_by_path DbBackend.postgres noFail db2 0 segments =
      (Except.ok (some n), k3) := by
  have hsplit : segments ≠ [] ∧ createWalk db none none segments = (db2, some n) := by
    unfold find_or_create_by_path at h
    simp only [ensure_postgres, reduceIte] at h
    by_cases hseg : segments.isEmpty
    · simp [hseg] at h
    · constructor
      · intro hnil
        rw [hnil] at hseg
        exact hseg rfl
      · simp only [hseg, Bool.false_eq_true, reduceIte] at h
        rcases acquire_cases strategy sched db k with ⟨key, k1, ha⟩ | ⟨ea, k1, ha⟩ <;>
          rw [ha] at h
        · have h2 : find_or_create_with_guard sched { txn := db, key := key } db k1
              segments = (Except.ok n, db2, k2) := h
          exact with_guard_ok_pure sched db key db k1 segments n db2 k2 h2
        · simp at h
  have hfw : findWalk db2 none none segments = some n :=
    createWalk_roundtrip segments db none none db2 (some n) hsplit.2
  obtain ⟨k3, hb⟩ := find_loop_noFail segments db2 0 none none
  rw [hfw] at hb
  refine ⟨k3, ?_⟩
  have hemp : segments.isEmpty = false := by
    cases hs : segments
    · exact absurd hs hsplit.1
    · rfl
  unfold find_by_path find_by_path_on
  simp only [ensure_postgres, reduceIte, hemp, Bool.false_eq_true]
  exact hb

/-- Witness for C3: creating the path `["a"]` on an empty store yields
node 1, and replaying `find_by_path` on the produced state finds it. -/
theorem path_round_trip_witness :
    find_or_create_by_path AdvisoryLockStrategy.Disabled DbBackend.postgres noFail
        dbEmpty 0 ["a"] =
      (Except.ok { id := 1, parent_id := none, name := "a", ord := 0 },
        { nodes := [{ id := 1, parent_id := none, name := "a", ord := 0 }],
          edges := [{ ancestor := 1, descendant := 1, generations := 0 }] }, 5) ∧
    (∃ k3, find_by_path DbBackend.postgres noFail
        { nodes := [{ id := 1, parent_id := none, name := "a", ord := 0 }],
          edges := [{ ancestor := 1, descendant := 1, generations := 0 }] } 0 ["a"] =
      (Except.ok (some { id := 1, parent_id := none, name := "a", ord := 0 }), k3)) :=
  ⟨by decide,
    path_round_trip AdvisoryLockStrategy.Disabled noFail dbEmpty 0 ["a"]
      { id := 1, parent_id := none, name := "a", ord := 0 }
      { nodes := [{ id := 1, parent_id := none, name := "a", ord := 0 }],
        edges := [{ ancestor := 1, descendant := 1, generations := 0 }] } 5 (by decide)⟩

/-! ### Closure-row insertion preserves the §3 invariant -/

theorem mem_le_foldr_max : ∀ (l : List Node) (n : Node), n ∈ l →
    n.id ≤ l.foldr (fun m acc => max m.id acc) 0 := by
  intro l
  induction l with
  | nil => intro n h; cases h
  | cons x xs ih =>
    intro n h
    rcases List.mem_cons.mp h with h | h
    · subst h
      exact le_max_left _ _
    · exact le_trans (ih n h) (le_max_right _ _)

/-- The id the store assigns to a new row is fresh. -/
theorem node_id_lt_freshId (db : Db) (n : Node) (h : n ∈ db.nodes) : n.id < freshId db :=
  Nat.lt_succ_of_le (mem_le_foldr_max db.nodes n h)

/-- Every row emitted by the closure-row insertion has the new node as
its descendant. -/
theorem hierarchyRows_descendant (db : Db) (n : Node) (parent_id : Option Nat) (e : Edge)
    (h : e ∈ hierarchyRows db n parent_id) : e.descendant = n.id := by
  cases parent_id with
  | none =>
    have h2 : e = { ancestor := n.id, descendant := n.id, generations := 0 } := by
      simpa [hierarchyRows] using h
    rw [h2]
  | some p =>
    simp only [hierarchyRows, List.mem_cons, List.mem_map] at h
    rcases h with h | ⟨a, _, h⟩
    · rw [h]
    · rw [← h]

/-- The emitted closure rows are literally the §3 set of the new node. -/
theorem hierarchyRows_eq_expected (db : Db) (n : Node) :
    hierarchyRows db n n.parent_id = expectedEdges db n := by
  unfold hierarchyRows expectedEdges edgesFor
  cases n.parent_id <;> rfl

/-- The §3 set only depends on the parent's edge set. -/
theorem expectedEdges_of_edges_eq (db db2 : Db) (n : Node)
    (h : ∀ p, n.parent_id = some p → edgesFor db2 p = edgesFor db p) :
    expectedEdges db2 n = expectedEdges db n := by
  unfold expectedEdges
  cases hp : n.parent_id with
  | none => rfl
  | some p =>
    show ({ ancestor := n.id, descendant := n.id, generations := 0 } : Edge) ::
        (edgesFor db2 p).map
          (fun e =>
            ({ ancestor := e.ancestor, descendant := n.id,
               generations := e.generations + 1 } : Edge)) =
      ({ ancestor := n.id, descendant := n.id, generations := 0 } : Edge) ::
        (edgesFor db p).map
          (fun e =>
            ({ ancestor := e.ancestor, descendant := n.id,
               generations := e.generations + 1 } : Edge))
    rw [h p hp]

/-- A valid parent reference stays valid when the node table only
grows. -/
theorem ParentValid_of_nodes_extend (db db2 : Db) (parent_id : Option Nat)
    (h : ParentValid db parent_id) (hsub : ∀ m, m ∈ db.nodes → m ∈ db2.nodes) :
    ParentValid db2 parent_id := by
  unfold ParentValid at h ⊢
  cases parent_id with
  | none => trivial
  | some p =>
    obtain ⟨mm, hmm, hid⟩ := h
    exact ⟨mm, hsub mm hmm, hid⟩

/-- C1: for a node created by the walk, the closure rows inserted are
exactly the self edge together with one row `(a, new, g + 1)` per edge
`(a, parent, g)` — the §3 set computed at the pre-insert state — and
inserting the node plus those rows preserves the closure-table
consistency invariant whenever the parent reference is valid. -/
theorem insert_child_closure_rows (db : Db) (parent_id : Option Nat) (name : String)
    (hinv : ClosureInvariant db) (hpv : ParentValid db parent_id) :
    (insert_child db parent_id name).1.edges =
      db.edges ++ expectedEdges db (insert_child db parent_id name).2 ∧
    ClosureInvariant (insert_child db parent_id name).1 := by
  obtain ⟨hparents, hdesc, hclosure⟩ := hinv
  have hnp : (mkNode db parent_id name).parent_id = parent_id := rfl
  have hfresh : ∀ m ∈ db.nodes, m.id ≠ (mkNode db parent_id name).id := by
    intro m hm
    exact Nat.ne_of_lt (node_id_lt_freshId db m hm)
  have hdb2nodes : (insert_child db parent_id name).1.nodes =
      db.nodes ++ [mkNode db parent_id name] := rfl
  have hdb2edges : (insert_child db parent_id name).1.edges =
      db.edges ++ hierarchyRows db (mkNode db parent_id name) parent_id := rfl
  have hrows : hierarchyRows db (mkNode db parent_id name) parent_id =
      expectedEdges db (mkNode db parent_id name) :=
    hierarchyRows_eq_expected db (mkNode db parent_id name)
  have hrowsdesc : ∀ e ∈ hierarchyRows db (mkNode db parent_id name) parent_id,
      e.descendant = (mkNode db parent_id name).id := fun e he =>
    hierarchyRows_descendant db (mkNode db parent_id name) parent_id e he
  have hEF : ∀ i, edgesFor (insert_child db parent_id name).1 i =
      edgesFor db i ++
        (hierarchyRows db (mkNode db parent_id name) parent_id).filter
          (fun e => e.descendant == i) := by
    intro i
    unfold edgesFor
    rw [hdb2edges, List.filter_append]
  have hEFold : ∀ i, i ≠ (mkNode db parent_id name).id →
      edgesFor (insert_child db parent_id name).1 i = edgesFor db i := by
    intro i hi
    rw [hEF i, List.filter_eq_nil_iff.mpr, List.append_nil]
    intro e he
    simp only [beq_iff_eq]
    rw [hrowsdesc e he]
    exact fun hcontra => hi hcontra.symm
  have hEFnew : edgesFor (insert_child db parent_id name).1 (mkNode db parent_id name).id =
      hierarchyRows db (mkNode db parent_id name) parent_id := by
    rw [hEF _]
    have h1 : edgesFor db (mkNode db parent_id name).id = [] := by
      unfold edgesFor
      rw [List.filter_eq_nil_iff]
      intro e he
      simp only [beq_iff_eq]
      obtain ⟨mm, hmm, hid⟩ := hdesc e he
      intro hcontra
      exact hfresh mm hmm (hid.trans hcontra)
    have h2 : (hierarchyRows db (mkNode db parent_id name) parent_id).filter
        (fun e => e.descendant == (mkNode db parent_id name).id) =
        hierarchyRows db (mkNode db parent_id name) parent_id := by
      rw [List.filter_eq_self]
      intro e he
      simp only [beq_iff_eq]
      exact hrowsdesc e he
    rw [h1, h2, List.nil_append]
  have hparent_ne : ∀ p, parent_id = some p → p ≠ (mkNode db parent_id name).id := by
    intro p hp
    have hpv2 := hpv
    unfold ParentValid at hpv2
    rw [hp] at hpv2
    obtain ⟨mm, hmm, hid⟩ := hpv2
    rw [← hid]
    exact hfresh mm hmm
  have hsub : ∀ mm, mm ∈ db.nodes → mm ∈ (insert_child db parent_id name).1.nodes := by
    intro mm hmm
    rw [hdb2nodes]
    exact List.mem_append_left _ hmm
  constructor
  · rw [hdb2edges, hrows]
    rfl
  · refine ⟨?_, ?_, ?_⟩
    · intro m hm
      rw [hdb2nodes] at hm
      rcases List.mem_append.mp hm with hm | hm
      · exact ParentValid_of_nodes_extend db _ _ (hparents m hm) hsub
      · have hm2 : m = mkNode db parent_id name := List.mem_singleton.mp hm
        subst hm2
        rw [hnp]
        exact ParentValid_of_nodes_extend db _ _ hpv hsub
    · intro e he
      rw [hdb2edges] at he
      rcases List.mem_append.mp he with he | he
      · obtain ⟨mm, hmm, hid⟩ := hdesc e he
        exact ⟨mm, by rw [hdb2nodes]; exact List.mem_append_left _ hmm, hid⟩
      · exact ⟨mkNode db parent_id name,
          by rw [hdb2nodes]; exact List.mem_append_right _ (by simp),
          (hrowsdesc e he).symm⟩
    · intro m hm
      rw [hdb2nodes] at hm
      rcases List.mem_append.mp hm with hm | hm
      · have hne : m.id ≠ (mkNode db parent_id name).id := hfresh m hm
        rw [hEFold m.id hne, hclosure m hm]
        refine (expectedEdges_of_edges_eq db (insert_child db parent_id name).1 m ?_).symm
        intro p hp
        have hp2 := hparents m hm
        unfold ParentValid at hp2
        rw [hp] at hp2
        obtain ⟨mm, hmm, hid⟩ := hp2
        refine hEFold p ?_
        rw [← hid]
        exact hfresh mm hmm
      · have hm2 : m = mkNode db parent_id name := List.mem_singleton.mp hm
        subst hm2
        rw [hEFnew, hrows]
        refine (expectedEdges_of_edges_eq db (insert_child db parent_id name).1
          (mkNode db parent_id name) ?_).symm
        intro p hp
        rw [hnp] at hp
        exact hEFold p (hparent_ne p hp)

/-- Witness for C1: inserting a child of the root in a one-node table
satisfying the invariant. -/
theorem insert_child_closure_rows_witness :
    ClosureInvariant dbOneNode ∧ ParentValid dbOneNode (some 1) ∧
    ((insert_child dbOneNode (some 1) "b").1.edges =
      dbOneNode.edges ++ expectedEdges dbOneNode (insert_child dbOneNode (some 1) "b").2 ∧
    ClosureInvariant (insert_child dbOneNode (some 1) "b").1) :=
  ⟨by decide, by decide, insert_child_closure_rows dbOneNode (some 1) "b" (by decide) (by decide)⟩

/-! ### The advisory-lock key format -/

theorem crc32Round_lt (c : Nat) (h : c < 2 ^ 32) : crc32Round c < 2 ^ 32 := by
  unfold crc32Round
  split
  · exact Nat.xor_lt_two_pow (by omega) (by norm_num)
  · omega

theorem crc32Byte_lt (crc b : Nat) (h : crc < 2 ^ 32) : crc32Byte crc b < 2 ^ 32 := by
  unfold crc32Byte
  have h0 : Nat.xor crc (b % 256) < 2 ^ 32 := Nat.xor_lt_two_pow h (by omega)
  exact crc32Round_lt _ (crc32Round_lt _ (crc32Round_lt _ (crc32Round_lt _ (crc32Round_lt _
    (crc32Round_lt _ (crc32Round_lt _ (crc32Round_lt _ h0)))))))

/-- The CRC32 value is a 32-bit quantity. -/
theorem crc32_lt (bytes : List Nat) : crc32 bytes < 2 ^ 32 := by
  unfold crc32
  have hf : ∀ (l : List Nat) (acc : Nat), acc < 2 ^ 32 →
      List.foldl crc32Byte acc l < 2 ^ 32 := by
    intro l
    induction l with
    | nil => intro acc h; simpa using h
    | cons x xs ih => intro acc h; exact ih _ (crc32Byte_lt acc x h)
  exact Nat.xor_lt_two_pow (hf bytes _ (by norm_num)) (by norm_num)

theorem toHexCore_length_pos : ∀ (fuel n : Nat) (acc : List Char),
    acc.length + 1 ≤ (toHexCore fuel n acc).length := by
  intro fuel
  induction fuel with
  | zero => intro n acc; simp [toHexCore]
  | succ f ih =>
    intro n acc
    by_cases h16 : n < 16
    · simp [toHexCore, h16]
    · rw [toHexCore, if_neg h16]
      have h2 := ih (n / 16) (hexDigitChar (n % 16) :: acc)
      simp only [List.length_cons] at h2
      omega

theorem toHexCore_length_le :
    ∀ (j fuel n : Nat) (acc : List Char), n < 16 ^ (j + 1) →
      (toHexCore fuel n acc).length ≤ acc.length + (j + 1) := by
  intro j
  induction j with
  | zero =>
    intro fuel n acc h
    have h16 : n < 16 := by simpa using h
    cases fuel with
    | zero => simp [toHexCore]
    | succ f => simp [toHexCore, h16]
  | succ j ih =>
    intro fuel n acc h
    cases fuel with
    | zero => simp [toHexCore]
    | succ f =>
      by_cases h16 : n < 16
      · simp [toHexCore, h16]
      · rw [toHexCore, if_neg h16]
        have hdiv : n / 16 < 16 ^ (j + 1) := by
          rw [Nat.div_lt_iff_lt_mul (by norm_num)]
          calc n < 16 ^ (j + 1 + 1) := h
            _ = 16 ^ (j + 1) * 16 := by ring
        have h2 := ih f (n / 16) (hexDigitChar (n % 16) :: acc) hdiv
        simp only [List.length_cons] at h2
        omega

theorem hexDigitChar_isHex (d : Nat) (h : d < 16) : isHexDigitChar (hexDigitChar d) = true := by
  interval_cases d <;> decide

theorem toHexCore_hex : ∀ (fuel n : Nat) (acc : List Char),
    (∀ c ∈ acc, isHexDigitChar c = true) →
    ∀ c ∈ toHexCore fuel n acc, isHexDigitChar c = true := by
  intro fuel
  induction fuel with
  | zero =>
    intro n acc hacc c hc
    simp only [toHexCore, List.mem_cons] at hc
    rcases hc with hc | hc
    · subst hc
      exact hexDigitChar_isHex _ (Nat.mod_lt _ (by norm_num))
    · exact hacc c hc
  | succ f ih =>
    intro n acc hacc c hc
    by_cases h16 : n < 16
    · rw [toHexCore, if_pos h16] at hc
      rcases List.mem_cons.mp hc with hc | hc
      · subst hc
        exact hexDigitChar_isHex _ h16
      · exact hacc c hc
    · rw [toHexCore, if_neg h16] at hc
      refine ih (n / 16) _ ?_ c hc
      intro c2 hc2
      rcases List.mem_cons.mp hc2 with hc2 | hc2
      · subst hc2
        exact hexDigitChar_isHex _ (Nat.mod_lt _ (by norm_num))
      · exact hacc c2 hc2

/-- C6 (amended): the derived advisory-lock key is exactly
`"closure-tree::<entity>::<hierarchy>::<hex>"` where `<hex>` is the
lowercase hexadecimal CRC32 of `entity ++ "/" ++ hierarchy`, unpadded:
between one and eight hex digits.  The derivation is a function of the
two names, hence deterministic per logical tree. -/
theorem lock_key_derived_format (entity hierarchy : String) :
    ∃ hex : String,
      1 ≤ hex.length ∧ hex.length ≤ 8 ∧ (∀ c ∈ hex.data, isHexDigitChar c = true) ∧
      AdvisoryLockKey.derived_from entity hierarchy =
        AdvisoryLockKey.mk ("closure-tree::" ++ entity ++ "::" ++ hierarchy ++ "::" ++ hex) := by
  refine ⟨toHexLower (crc32 (strBytes entity ++ [47] ++ strBytes hierarchy)), ?_, ?_, ?_, rfl⟩
  · have h1 := toHexCore_length_pos (crc32 (strBytes entity ++ [47] ++ strBytes hierarchy))
      (crc32 (strBytes entity ++ [47] ++ strBytes hierarchy)) []
    simpa [toHexLower, String.length] using h1
  · have hlt : crc32 (strBytes entity ++ [47] ++ strBytes hierarchy) < 16 ^ 8 := by
      have h2 := crc32_lt (strBytes entity ++ [47] ++ strBytes hierarchy)
      have h3 : (2 : Nat) ^ 32 = 16 ^ 8 := by norm_num
      omega
    have h4 := toHexCore_length_le 7 (crc32 (strBytes entity ++ [47] ++ strBytes hierarchy))
      (crc32 (strBytes entity ++ [47] ++ strBytes hierarchy)) [] hlt
    simpa [toHexLower, String.length] using h4
  · intro c hc
    exact toHexCore_hex (crc32 (strBytes entity ++ [47] ++ strBytes hierarchy))
      (crc32 (strBytes entity ++ [47] ++ strBytes hierarchy)) [] (by simp) c
      (by simpa [toHexLower] using hc)

/-- C6 counterexample: for entity `"a"` and hierarchy `"b"` the derived
key is `"closure-tree::a::b::7f4401c"` (27 characters, with the
`closure-tree::` namespace prefix and only 7 hex digits), which does not
have the claimed shape `"<entity>::<hierarchy>::<8 hex digits>"` (14
characters here). -/
theorem lock_key_claimed_format_counterexample :
    ¬ claimedLockKeyFormat "a" "b" (AdvisoryLockKey.derived_from "a" "b") := by
  rintro ⟨hex, hlen, _, heq⟩
  have hconc : (AdvisoryLockKey.derived_from "a" "b").value =
      "closure-tree::a::b::7f4401c" := by decide
  rw [hconc] at heq
  have hL := congrArg String.length heq
  simp only [String.length_append] at hL
  have h1 : ("closure-tree::a::b::7f4401c" : String).length = 27 := by decide
  have h2 : ("a" : String).length = 1 := by decide
  have h3 : ("::" : String).length = 2 := by decide
  have h4 : ("b" : String).length = 1 := by decide
  rw [h1, h2, h3, h4] at hL
  omega
